import Mathlib

/-!
# Verification of cargo-geiger core components

A shallow embedding, in Lean 4, of the core logic of the `cargo-geiger`
repository:

* `src/cargo-geiger/src/rs_file.rs` — the file classifier
  (`into_rs_code_file`), the dep-info parser (`parse_rustc_dep_info`)
  and the dependency resolver (`resolve_rs_file_deps`,
  `add_dir_entries_to_path_buf_hash_set`);
* `src/cargo-geiger/src/scan/forbid/table.rs` — the forbid-mode table
  renderer (`scan_forbid_to_table`, `handle_package_text_tree_line`);
* `src/cargo-geiger/src/format/print_config.rs` — `colorize`.

Rust strings are modelled as `List Char` where character-level scanning
matters (the dep-info parser) and as `String` elsewhere; `HashSet<PathBuf>`
is modelled as a duplicate-free `List String` built by a
membership-checking insert; file-system and cargo effects (directory
walks, file reads, path canonicalization) are supplied by an explicit
environment record, and a Rust panic is modelled as `Option.none`.
-/

namespace CargoGeiger

/-! ## Dep-info parsing (rs_file.rs, `parse_rustc_dep_info`)

The Rust function reads a generated `.d` file, keeps the lines containing
the two-character separator `": "`, splits the part after the separator on
whitespace and re-joins tokens that end in a trailing backslash (an escaped
space inside a filename).  A trailing backslash with no following token
hits an `expect` and panics; we model the panic as `none`. -/

/-- Does the line contain the two-character substring `": "`?
Models Rust's `l.find(": ").is_some()`. -/
def hasColonSpace : List Char → Bool
  | [] => false
  | [_] => false
  | a :: b :: rest => if a = ':' ∧ b = ' ' then true else hasColonSpace (b :: rest)

/-- Split a line at the first occurrence of `": "`, returning the part
before and the part after.  Models `l.find(": ")` followed by
`&line[..pos]` / `&line[pos + 2..]`. -/
def splitAtColonSpace : List Char → Option (List Char × List Char)
  | [] => none
  | [_] => none
  | a :: b :: rest =>
    if a = ':' ∧ b = ' ' then some ([], rest)
    else (splitAtColonSpace (b :: rest)).map (fun p => (a :: p.1, p.2))

/-- Accumulator-based whitespace splitter; models Rust's
`str::split_whitespace` (maximal runs of non-whitespace characters,
no empty tokens). -/
def splitWsAux : List Char → List Char → List (List Char)
  | acc, [] => if acc.isEmpty then [] else [acc.reverse]
  | acc, c :: rest =>
    if c.isWhitespace then
      if acc.isEmpty then splitWsAux [] rest
      else acc.reverse :: splitWsAux [] rest
    else splitWsAux (c :: acc) rest

/-- Models `str::split_whitespace` on a line's dependency section. -/
def splitWhitespace (l : List Char) : List (List Char) :=
  splitWsAux [] l

/-- One step of the token-merging loop of `parse_rustc_dep_info`:
`pending` is the partially assembled filename (with its trailing
backslash already replaced by a literal space) waiting for its
continuation token.  While the assembled file ends in `'\'`, the
backslash is dropped, a literal space restored and the next
whitespace-delimited token appended.  The Rust code calls
`deps.next().expect("malformed dep-info format, trailing \\")`, i.e. it
panics when the continuation token is missing; the panic is modelled as
`none`. -/
def processDepsAux : Option (List Char) → List (List Char) → Option (List (List Char))
  | none, [] => some []
  | some _, [] => none
  | pending, s :: rest =>
    let file := pending.getD [] ++ s
    if file.getLast? = some '\\' then
      processDepsAux (some (file.dropLast ++ [' '])) rest
    else
      (processDepsAux none rest).map (file :: ·)

/-- The `while let Some(s) = deps.next()` loop of `parse_rustc_dep_info`
over the whitespace-split dependency tokens of one line. -/
def processDeps (deps : List (List Char)) : Option (List (List Char)) :=
  processDepsAux none deps

/-- One kept line of a dep-info file: the target is the part before
`": "`, the dependencies are the whitespace-split, backslash-merged
tokens of the part after. -/
def parseDepLine (p : List Char × List Char) : Option (List Char × List (List Char)) :=
  (processDeps (splitWhitespace p.2)).map (fun deps => (p.1, deps))

/-- Model of `parse_rustc_dep_info` applied to the already-read contents
of a dep-info file, given as a list of lines (Rust's `contents.lines()`):
lines without `": "` are dropped by `filter_map`, each kept line is split
into a target and its dependency tokens.  `none` models the `expect`
panic on a trailing backslash with no continuation token. -/
def parse_rustc_dep_info (lines : List (List Char)) : Option (List (List Char × List (List Char))) :=
  (lines.filterMap splitAtColonSpace).mapM parseDepLine

/-- `parse_rustc_dep_info` over `String` lines, converting the result
back to `String`s. -/
def parseRustcDepInfoStr (lines : List String) : Option (List (String × List String)) :=
  (parse_rustc_dep_info (lines.map String.toList)).map
    (List.map (fun p => (String.mk p.1, p.2.map String.mk)))

/-- All dependency tokens of a parsed dep-info file, in order; models
`dependencies.into_iter().flat_map(|t| t.1)` in
`add_dir_entries_to_path_buf_hash_set`. -/
def depTokens (lines : List String) : Option (List String) :=
  (parseRustcDepInfoStr lines).map (fun parsed => (parsed.map Prod.snd).flatten)

/-! ## File classifier (rs_file.rs, `into_rs_code_file`) -/

/-- `cargo::core::manifest::TargetKind` (the payloads of `Lib` and
`ExampleLib` are the crate-type lists, irrelevant to classification and
modelled as strings). -/
inductive TargetKind where
  | Lib (kinds : List String)
  | Bin
  | Test
  | Bench
  | ExampleLib (kinds : List String)
  | ExampleBin
  | CustomBuild
  deriving DecidableEq

/-- The role-tagged source file produced by the classifier
(`RsFile` in rs_file.rs); paths are modelled as strings. -/
inductive RsFile where
  | LibRoot (path : String)
  | BinRoot (path : String)
  | CustomBuildRoot (path : String)
  | Other (path : String)
  deriving DecidableEq

/-- `into_rs_code_file` from rs_file.rs: classify a target's source root
by the target's kind. -/
def into_rs_code_file (kind : TargetKind) (path : String) : RsFile :=
  match kind with
  | .Lib _ => .LibRoot path
  | .Bin => .BinRoot path
  | .Test => .Other path
  | .Bench => .Other path
  | .ExampleLib _ => .Other path
  | .ExampleBin => .Other path
  | .CustomBuild => .CustomBuildRoot path

/-! ## Dependency-file resolver (rs_file.rs, `resolve_rs_file_deps`)

File-system and cargo effects are supplied by an explicit environment:
`dFilesOf` gives, per output directory, the files of the recursive walk
that pass the `is_file_with_ext(entry, "d")` filter (a failing walk is
out of scope of the claims settled here); `contentsOf` models
`cargo::util::paths::read` (its error is the read-error text);
`canon` models `Path::canonicalize` (`none` is the `io::Error` case) and
`join` models `PathBuf::join` against the workspace root. -/

/-- `RsResolveError` from rs_file.rs.  `Io` carries the path that failed
to canonicalize (the wrapped `io::Error` itself is not modelled). -/
inductive RsResolveError where
  | ArcUnwrap
  | Cargo (message : String)
  | DepParse (message : String) (path : String)
  | InnerContextMutex (message : String)
  | Io (path : String)
  | Walkdir
  deriving DecidableEq

/-- The effects environment of the resolver. -/
structure ResolveEnv where
  dFilesOf : String → List String
  contentsOf : String → Except String (List String)
  canon : String → Option String
  join : String → String → String

/-- `CustomExecutorInnerContext` (custom_executor.rs): the source roots
and output directories recorded by the interceptor during the build. -/
structure CustomExecutorInnerContext where
  rs_file_args : List String
  out_dir_args : List String

/-- `HashSet::insert` on the list model of a hash set: add the element
only when it is not already present. -/
def hsInsert (s : List String) (x : String) : List String :=
  if x ∈ s then s else s ++ [x]

/-- Insert every element of `xs` into the set; models the
`for path_buf in rs_files { path_buf_hash_set.insert(path_buf); }` loop. -/
def insertAll (s : List String) (xs : List String) : List String :=
  xs.foldl hsInsert s

/-- The canonicalize-and-insert loop over the dependency tokens of one
dep-info file: each token is joined against the workspace root,
canonicalized (an `io` failure aborts with `RsResolveError::Io`) and
inserted into the set. -/
def insertCanonicalDeps (env : ResolveEnv) (root : String) :
    List String → List String → Except RsResolveError (List String)
  | [], s => .ok s
  | d :: rest, s =>
    match env.canon (env.join root d) with
    | none => .error (.Io (env.join root d))
    | some c => insertCanonicalDeps env root rest (hsInsert s c)

/-- Processing of a single `.d` file inside
`add_dir_entries_to_path_buf_hash_set`: read it (a read failure is the
only `Err` of `parse_rustc_dep_info` and is wrapped as
`RsResolveError::DepParse` with the file's path), parse it (`none` is
the parser's panic), then canonicalize and insert every dependency
token. -/
def processDepFile (env : ResolveEnv) (root : String) (f : String)
    (s : List String) : Option (Except RsResolveError (List String)) :=
  match env.contentsOf f with
  | .error e => some (.error (.DepParse e f))
  | .ok lines =>
    match depTokens lines with
    | none => none
    | some deps => some (insertCanonicalDeps env root deps s)

/-- Fold `processDepFile` over a list of `.d` files, aborting on the
first error (and propagating a panic). -/
def processDepFiles (env : ResolveEnv) (root : String) :
    List String → List String → Option (Except RsResolveError (List String))
  | [], s => some (.ok s)
  | f :: rest, s =>
    match processDepFile env root f s with
    | none => none
    | some (.error e) => some (.error e)
    | some (.ok s') => processDepFiles env root rest s'

/-- `add_dir_entries_to_path_buf_hash_set` from rs_file.rs: walk one
output directory, keep the `.d` files, and process each in turn. -/
def add_dir_entries_to_path_buf_hash_set (env : ResolveEnv) (out_dir : String)
    (s : List String) (root : String) : Option (Except RsResolveError (List String)) :=
  processDepFiles env root (env.dFilesOf out_dir) s

/-- The `for out_dir in out_dir_args` loop of `resolve_rs_file_deps`. -/
def addAllOutDirs (env : ResolveEnv) (root : String) :
    List String → List String → Option (Except RsResolveError (List String))
  | [], s => some (.ok s)
  | od :: rest, s =>
    match add_dir_entries_to_path_buf_hash_set env od s root with
    | none => none
    | some (.error e) => some (.error e)
    | some (.ok s') => addAllOutDirs env root rest s'

/-- `resolve_rs_file_deps` from rs_file.rs.  `cleanResult` and
`compileResult` model the outcomes of `ops::clean` and
`ops::compile_with_exec` (`some e` is a failure with cargo's diagnostic
text, mapped to `RsResolveError::Cargo`); `arcStrongCount` is the number
of live references to the shared interceptor context at drain time
(`Arc::try_unwrap` succeeds exactly when it is 1); `poison` is the
poisoned state of the context's mutex (`some m` maps to
`RsResolveError::InnerContextMutex` via the `From<PoisonError<_>>`
impl).  On the success path the output directories are processed first,
then the recorded source roots are inserted. -/
def resolve_rs_file_deps (env : ResolveEnv) (root : String)
    (cleanResult compileResult : Option String)
    (arcStrongCount : Nat) (poison : Option String)
    (ctx : CustomExecutorInnerContext) : Option (Except RsResolveError (List String)) :=
  match cleanResult with
  | some e => some (.error (.Cargo e))
  | none =>
    match compileResult with
    | some e => some (.error (.Cargo e))
    | none =>
      if arcStrongCount = 1 then
        match poison with
        | some m => some (.error (.InnerContextMutex m))
        | none =>
          match addAllOutDirs env root ctx.out_dir_args [] with
          | none => none
          | some (.error e) => some (.error e)
          | some (.ok s) => some (.ok (insertAll s ctx.rs_file_args))
      else some (.error .ArcUnwrap)

/-! ## Forbid-mode table renderer (scan/forbid/table.rs) and colors
(format/print_config.rs)

Terminal rendering is external (the `colored` crate and emoji tables);
a colored string is modelled structurally as text plus a foreground
color and a bold flag, and an output line of the forbid table is
modelled structurally instead of as a formatted string. -/

/-- `SymbolKind` (format/mod.rs, declared outside the provided sources;
the forbid table uses `Lock` and `QuestionMark`, the radiation warning
symbol is `Rads`). -/
inductive SymbolKind where
  | Lock
  | QuestionMark
  | Rads
  deriving DecidableEq

/-- Foreground colors used by the code: `colored`'s `.green()`,
`.red()` and `.normal()`. -/
inductive TextColor where
  | green
  | red
  | normal
  deriving DecidableEq

/-- Structural model of `colored::ColoredString`. -/
structure ColoredString where
  text : String
  color : TextColor
  bold : Bool
  deriving DecidableEq

/-- `CrateDetectionStatus` (format/mod.rs): the three-way per-package
verdict. -/
inductive CrateDetectionStatus where
  | NoneDetectedForbidsUnsafe
  | NoneDetectedAllowsUnsafe
  | UnsafeDetected
  deriving DecidableEq

/-- `colorize` from format/print_config.rs: pick the color of a rendered
string from the verdict. -/
def colorize (s : String) : CrateDetectionStatus → ColoredString
  | .NoneDetectedForbidsUnsafe => ⟨s, .green, false⟩
  | .NoneDetectedAllowsUnsafe => ⟨s, .normal, false⟩
  | .UnsafeDetected => ⟨s, .red, true⟩

/-- Modelled from the spec: the per-verdict safety symbol of a package
line.  The function making this choice in the scan renderer is not among
the provided sources (only the forbid-mode table is, and it uses just
`Lock`/`QuestionMark`).  Spec 4.5: ForbidsUnsafeEverywhere maps to the
"locked" symbol, UnsafeDetected to the "warning" symbol, and
NoneDetectedButNotForbidden to the plain/neutral rendering. -/
def verdictSymbol : CrateDetectionStatus → SymbolKind
  | .NoneDetectedForbidsUnsafe => .Lock
  | .NoneDetectedAllowsUnsafe => .QuestionMark
  | .UnsafeDetected => .Rads

/-- The `forbids_unsafe` flag of `geiger::RsFileMetrics` (the external
scanner's per-file result; the unsafe-construct counters are not read by
the forbid table and are not modelled). -/
structure RsFileMetrics where
  forbids_unsafe_code : Bool
  deriving DecidableEq

/-- `RsFileMetricsWrapper` from rs_file.rs. -/
structure RsFileMetricsWrapper where
  metrics : RsFileMetrics
  is_crate_entry_point : Bool
  deriving DecidableEq

/-- The per-package entry of `geiger_ctx.package_id_to_metrics`: its
`rs_path_to_metrics` map, modelled as an association list from path to
wrapper. -/
structure PackageMetrics where
  rs_path_to_metrics : List (String × RsFileMetricsWrapper)
  deriving DecidableEq

/-- `DepKind` of a dependency edge (cargo's `DepKind`); package
identities are opaque and modelled as naturals. -/
inductive DepKind where
  | Normal
  | Build
  | Development
  deriving DecidableEq

/-- Modelled from the spec: `get_kind_group_name` (format/mod.rs, not
among the provided sources).  Spec 3 and 4.5: non-root-kind categories
are labeled by category name (e.g. "build-dependencies",
"dev-dependencies"); the root (normal) kind has no recognized label. -/
def get_kind_group_name : DepKind → Option String
  | .Normal => none
  | .Build => some "build-dependencies"
  | .Development => some "dev-dependencies"

/-- `TextTreeLine` (tree/mod.rs, declared outside the provided sources):
the flat tree lines handed to the forbid table by
`walk_dependency_tree`. -/
inductive TextTreeLine where
  | ExtraDepsGroup (kind : DepKind) (tree_vines : String)
  | Package (id : Nat) (tree_vines : String)

/-- One structurally-modelled output line of the forbid table:
`group` models the pushed string `"  {tree_vines}{name}"`, `package`
models `"{symbol} {tree_vines}{name}"` with its colored name. -/
inductive OutLine where
  | group (tree_vines : String) (label : String)
  | package (symbol : SymbolKind) (tree_vines : String) (name : ColoredString)
  deriving DecidableEq

/-- The aggregation inside `handle_package_text_tree_line`
(scan/forbid/table.rs): with no metrics entry the package does not count
as forbidding (`None => false`); with a metrics entry it counts exactly
when `iter().all(...)` of the per-file `forbids_unsafe` flags holds. -/
def package_forbids_unsafe_flag (packageMetrics : Option PackageMetrics) : Bool :=
  match packageMetrics with
  | none => false
  | some pm => pm.rs_path_to_metrics.all (fun kv => kv.2.metrics.forbids_unsafe_code)

/-- `handle_package_text_tree_line` (scan/forbid/table.rs): choose the
lock symbol and a green name when the package forbids unsafe code
everywhere, else the question-mark symbol and a red name, and push the
package line.  `packageMetrics` is the result of
`geiger_ctx.package_id_to_metrics.get(&package_id)`. -/
def handle_package_text_tree_line (packageMetrics : Option PackageMetrics)
    (name : String) (tree_vines : String) : OutLine :=
  if package_forbids_unsafe_flag packageMetrics then
    .package .Lock tree_vines ⟨name, .green, false⟩
  else
    .package .QuestionMark tree_vines ⟨name, .red, false⟩

/-- The tree-line loop of `scan_forbid_to_table` (scan/forbid/table.rs):
an `ExtraDepsGroup` line whose kind has no recognized label is skipped
(`continue`), a labeled one pushes a group line, and a `Package` line is
rendered by `handle_package_text_tree_line`.  `metricsOf` models the
lookup into the scan context and `nameOf` the formatted package name;
the leading key lines of the table are not tree lines and are omitted. -/
def scan_forbid_to_table (metricsOf : Nat → Option PackageMetrics)
    (nameOf : Nat → String) (tree_lines : List TextTreeLine) : List OutLine :=
  tree_lines.filterMap (fun tl =>
    match tl with
    | .ExtraDepsGroup kind tree_vines =>
      (get_kind_group_name kind).map (OutLine.group tree_vines)
    | .Package id tree_vines =>
      some (handle_package_text_tree_line (metricsOf id) (nameOf id) tree_vines))

/-- The dependency tokens contributed by one `.d` file under a given
environment (empty when the file cannot be read or its parse panics);
used to state the resolver's union property. -/
def fileTokens (env : ResolveEnv) (f : String) : List String :=
  match env.contentsOf f with
  | .error _ => []
  | .ok lines => (depTokens lines).getD []

/-- A `.d` file is well formed under an environment when it can be read
and its parse does not panic. -/
def depFileOk (env : ResolveEnv) (f : String) : Bool :=
  match env.contentsOf f with
  | .error _ => false
  | .ok lines => (depTokens lines).isSome

/-! ## Helper lemmas -/

theorem splitAtColonSpace_eq_none :
    ∀ l : List Char, splitAtColonSpace l = none ↔ hasColonSpace l = false
  | [] => by simp [splitAtColonSpace, hasColonSpace]
  | [c] => by simp [splitAtColonSpace, hasColonSpace]
  | a :: b :: rest => by
    have ih := splitAtColonSpace_eq_none (b :: rest)
    simp only [splitAtColonSpace, hasColonSpace]
    split
    · simp_all
    · simp_all [Option.map_eq_none']

theorem splitAtColonSpace_append :
    ∀ t : List Char, hasColonSpace t = false →
      ∀ r : List Char, splitAtColonSpace (t ++ ':' :: ' ' :: r) = some (t, r)
  | [], _, r => by simp [splitAtColonSpace]
  | [c], _, r => by
    simp [splitAtColonSpace]
  | a :: b :: t, ht, r => by
    have hsplit : ¬(a = ':' ∧ b = ' ') ∧ hasColonSpace (b :: t) = false := by
      by_cases hab : a = ':' ∧ b = ' '
      · exfalso
        unfold hasColonSpace at ht
        rw [if_pos hab] at ht
        exact absurd ht (by decide)
      · refine ⟨hab, ?_⟩
        unfold hasColonSpace at ht
        rwa [if_neg hab] at ht
    have ih := splitAtColonSpace_append (b :: t) hsplit.2 r
    simp only [List.cons_append] at ih ⊢
    unfold splitAtColonSpace
    rw [if_neg hsplit.1, ih]
    rfl

theorem splitWsAux_nil (acc : List Char) :
    splitWsAux acc [] = if acc.isEmpty then [] else [acc.reverse] :=
  rfl

theorem splitWsAux_cons (acc : List Char) (c : Char) (rest : List Char) :
    splitWsAux acc (c :: rest) =
      if c.isWhitespace then
        if acc.isEmpty then splitWsAux [] rest else acc.reverse :: splitWsAux [] rest
      else splitWsAux (c :: acc) rest :=
  rfl

theorem splitWsAux_append_nonws :
    ∀ w acc r : List Char, (∀ c ∈ w, c.isWhitespace = false) →
      splitWsAux acc (w ++ r) = splitWsAux (w.reverse ++ acc) r
  | [], acc, r, _ => by simp
  | c :: w, acc, r, hw => by
    have hc : c.isWhitespace = false := hw c (List.mem_cons_self c w)
    have ih := splitWsAux_append_nonws w (c :: acc) r
      (fun d hd => hw d (List.mem_cons_of_mem c hd))
    show splitWsAux acc (c :: (w ++ r)) = _
    rw [splitWsAux_cons, hc]
    simp only [Bool.false_eq_true, if_false, ih, List.reverse_cons,
      List.append_assoc, List.singleton_append]

theorem splitWsAux_space (acc r : List Char) :
    splitWsAux acc (' ' :: r) =
      if acc.isEmpty then splitWsAux [] r else acc.reverse :: splitWsAux [] r := by
  have hws : (' ' : Char).isWhitespace = true := by decide
  simp only [splitWsAux, hws, if_true]

theorem splitWhitespace_single (w : List Char) (hne : w ≠ [])
    (hw : ∀ c ∈ w, c.isWhitespace = false) : splitWhitespace w = [w] := by
  have h := splitWsAux_append_nonws w [] [] hw
  simp only [List.append_nil] at h
  unfold splitWhitespace
  rw [h]
  simp only [splitWsAux, List.isEmpty_eq_true, List.reverse_eq_nil_iff]
  rw [if_neg hne]
  simp

theorem splitWhitespace_pair (w1 w2 : List Char) (h1ne : w1 ≠ [])
    (h1 : ∀ c ∈ w1, c.isWhitespace = false) (h2ne : w2 ≠ [])
    (h2 : ∀ c ∈ w2, c.isWhitespace = false) :
    splitWhitespace (w1 ++ ' ' :: w2) = [w1, w2] := by
  unfold splitWhitespace
  rw [splitWsAux_append_nonws w1 [] (' ' :: w2) h1, List.append_nil,
    splitWsAux_space]
  rw [if_neg (by simp [List.isEmpty_eq_true, List.reverse_eq_nil_iff, h1ne])]
  have := splitWhitespace_single w2 h2ne h2
  unfold splitWhitespace at this
  rw [this, List.reverse_reverse]

theorem processDeps_merge (s1 s2 : List Char) (h2ne : s2 ≠ [])
    (h2 : s2.getLast? ≠ some '\\') :
    processDeps [s1 ++ ['\\'], s2] = some [s1 ++ ' ' :: s2] := by
  unfold processDeps
  simp only [processDepsAux, Option.getD_none, List.nil_append,
    List.getLast?_concat, if_true, List.dropLast_concat, Option.getD_some]
  rw [if_neg (by rw [List.getLast?_append_of_ne_nil _ h2ne]; exact h2)]
  simp [List.append_assoc]

theorem mem_hsInsert (s : List String) (x y : String) :
    y ∈ hsInsert s x ↔ y ∈ s ∨ y = x := by
  unfold hsInsert
  split
  · next hx => exact ⟨Or.inl, fun h => h.elim id (fun h' => h' ▸ hx)⟩
  · simp

theorem nodup_hsInsert (s : List String) (x : String) (h : s.Nodup) :
    (hsInsert s x).Nodup := by
  unfold hsInsert
  split
  · exact h
  · next hx => simp [List.nodup_append, h, List.disjoint_singleton, hx]

theorem mem_insertAll :
    ∀ (xs s : List String) (y : String), y ∈ insertAll s xs ↔ y ∈ s ∨ y ∈ xs
  | [], s, y => by simp [insertAll]
  | x :: xs, s, y => by
    have ih := mem_insertAll xs (hsInsert s x) y
    simp only [insertAll, List.foldl_cons] at *
    rw [ih, mem_hsInsert]
    constructor
    · rintro ((h | rfl) | h)
      · exact Or.inl h
      · exact Or.inr (List.mem_cons_self _ _)
      · exact Or.inr (List.mem_cons_of_mem _ h)
    · rintro (h | h)
      · exact Or.inl (Or.inl h)
      · rcases List.mem_cons.mp h with rfl | h'
        · exact Or.inl (Or.inr rfl)
        · exact Or.inr h'

theorem nodup_insertAll :
    ∀ (xs s : List String), s.Nodup → (insertAll s xs).Nodup
  | [], s, h => h
  | x :: xs, s, h => by
    have := nodup_insertAll xs (hsInsert s x) (nodup_hsInsert s x h)
    simpa [insertAll, List.foldl_cons] using this

theorem insertCanonicalDeps_ok (env : ResolveEnv) (root : String) :
    ∀ (deps s : List String),
      (∀ d ∈ deps, (env.canon (env.join root d)).isSome = true) →
      ∃ out, insertCanonicalDeps env root deps s = .ok out ∧
        (∀ y, y ∈ out ↔ y ∈ s ∨ ∃ d ∈ deps, env.canon (env.join root d) = some y) ∧
        (s.Nodup → out.Nodup)
  | [], s, _ => ⟨s, rfl, by simp [insertCanonicalDeps], id⟩
  | d :: deps, s, h => by
    obtain ⟨c, hc⟩ : ∃ c, env.canon (env.join root d) = some c :=
      Option.isSome_iff_exists.mp (h d (List.mem_cons_self d deps))
    obtain ⟨out, hout, hmem, hnd⟩ :=
      insertCanonicalDeps_ok env root deps (hsInsert s c)
        (fun d' hd' => h d' (List.mem_cons_of_mem d hd'))
    refine ⟨out, ?_, ?_, ?_⟩
    · simp only [insertCanonicalDeps, hc]
      exact hout
    · intro y
      rw [hmem y, mem_hsInsert]
      constructor
      · rintro ((hy | rfl) | ⟨d', hd', hcd'⟩)
        · exact Or.inl hy
        · exact Or.inr ⟨d, List.mem_cons_self d deps, hc⟩
        · exact Or.inr ⟨d', List.mem_cons_of_mem d hd', hcd'⟩
      · rintro (hy | ⟨d', hd', hcd'⟩)
        · exact Or.inl (Or.inl hy)
        · rcases List.mem_cons.mp hd' with rfl | hd''
          · refine Or.inl (Or.inr ?_)
            rw [hc] at hcd'
            exact (Option.some_inj.mp hcd').symm
          · exact Or.inr ⟨d', hd'', hcd'⟩
    · exact fun hs => hnd (nodup_hsInsert s c hs)

theorem processDepFile_ok (env : ResolveEnv) (root f : String) (s : List String)
    (hok : depFileOk env f = true)
    (hc : ∀ d ∈ fileTokens env f, (env.canon (env.join root d)).isSome = true) :
    ∃ out, processDepFile env root f s = some (.ok out) ∧
      (∀ y, y ∈ out ↔ y ∈ s ∨ ∃ d ∈ fileTokens env f, env.canon (env.join root d) = some y) ∧
      (s.Nodup → out.Nodup) := by
  cases hcont : env.contentsOf f with
  | error e =>
    exfalso
    unfold depFileOk at hok
    rw [hcont] at hok
    exact absurd hok (by simp)
  | ok lines =>
    have hok' : (depTokens lines).isSome = true := by
      unfold depFileOk at hok
      rw [hcont] at hok
      exact hok
    obtain ⟨deps, hdeps⟩ : ∃ deps, depTokens lines = some deps :=
      Option.isSome_iff_exists.mp hok'
    have htoks : fileTokens env f = deps := by
      unfold fileTokens
      rw [hcont]
      simp [hdeps]
    rw [htoks] at hc
    obtain ⟨out, hout, hmem, hnd⟩ := insertCanonicalDeps_ok env root deps s hc
    refine ⟨out, ?_, ?_, hnd⟩
    · unfold processDepFile
      rw [hcont]
      simp only [hdeps]
      rw [hout]
    · intro y
      rw [htoks]
      exact hmem y

theorem processDepFiles_ok (env : ResolveEnv) (root : String) :
    ∀ (files s : List String),
      (∀ f ∈ files, depFileOk env f = true) →
      (∀ f ∈ files, ∀ d ∈ fileTokens env f, (env.canon (env.join root d)).isSome = true) →
      ∃ out, processDepFiles env root files s = some (.ok out) ∧
        (∀ y, y ∈ out ↔ y ∈ s ∨
          ∃ f ∈ files, ∃ d ∈ fileTokens env f, env.canon (env.join root d) = some y) ∧
        (s.Nodup → out.Nodup)
  | [], s, _, _ => ⟨s, rfl, by simp, id⟩
  | f :: files, s, hok, hc => by
    obtain ⟨out1, hout1, hmem1, hnd1⟩ :=
      processDepFile_ok env root f s (hok f (List.mem_cons_self f files))
        (hc f (List.mem_cons_self f files))
    obtain ⟨out, hout, hmem, hnd⟩ :=
      processDepFiles_ok env root files out1
        (fun f' hf' => hok f' (List.mem_cons_of_mem f hf'))
        (fun f' hf' => hc f' (List.mem_cons_of_mem f hf'))
    refine ⟨out, ?_, ?_, fun hs => hnd (hnd1 hs)⟩
    · simp only [processDepFiles, hout1]
      exact hout
    · intro y
      rw [hmem y, hmem1 y]
      constructor
      · rintro ((hy | ⟨d, hd, hcd⟩) | ⟨f', hf', d, hd, hcd⟩)
        · exact Or.inl hy
        · exact Or.inr ⟨f, List.mem_cons_self f files, d, hd, hcd⟩
        · exact Or.inr ⟨f', List.mem_cons_of_mem f hf', d, hd, hcd⟩
      · rintro (hy | ⟨f', hf', d, hd, hcd⟩)
        · exact Or.inl (Or.inl hy)
        · rcases List.mem_cons.mp hf' with rfl | hf''
          · exact Or.inl (Or.inr ⟨d, hd, hcd⟩)
          · exact Or.inr ⟨f', hf'', d, hd, hcd⟩

theorem addAllOutDirs_ok (env : ResolveEnv) (root : String) :
    ∀ (dirs s : List String),
      (∀ od ∈ dirs, ∀ f ∈ env.dFilesOf od, depFileOk env f = true) →
      (∀ od ∈ dirs, ∀ f ∈ env.dFilesOf od, ∀ d ∈ fileTokens env f,
        (env.canon (env.join root d)).isSome = true) →
      ∃ out, addAllOutDirs env root dirs s = some (.ok out) ∧
        (∀ y, y ∈ out ↔ y ∈ s ∨
          ∃ od ∈ dirs, ∃ f ∈ env.dFilesOf od, ∃ d ∈ fileTokens env f,
            env.canon (env.join root d) = some y) ∧
        (s.Nodup → out.Nodup)
  | [], s, _, _ => ⟨s, rfl, by simp, id⟩
  | od :: dirs, s, hok, hc => by
    obtain ⟨out1, hout1, hmem1, hnd1⟩ :=
      processDepFiles_ok env root (env.dFilesOf od) s
        (hok od (List.mem_cons_self od dirs)) (hc od (List.mem_cons_self od dirs))
    obtain ⟨out, hout, hmem, hnd⟩ :=
      addAllOutDirs_ok env root dirs out1
        (fun od' hod' => hok od' (List.mem_cons_of_mem od hod'))
        (fun od' hod' => hc od' (List.mem_cons_of_mem od hod'))
    refine ⟨out, ?_, ?_, fun hs => hnd (hnd1 hs)⟩
    · simp only [addAllOutDirs, add_dir_entries_to_path_buf_hash_set, hout1]
      exact hout
    · intro y
      rw [hmem y, hmem1 y]
      constructor
      · rintro ((hy | ⟨f, hf, d, hd, hcd⟩) | ⟨od', hod', rest⟩)
        · exact Or.inl hy
        · exact Or.inr ⟨od, List.mem_cons_self od dirs, f, hf, d, hd, hcd⟩
        · exact Or.inr ⟨od', List.mem_cons_of_mem od hod', rest⟩
      · rintro (hy | ⟨od', hod', rest⟩)
        · exact Or.inl (Or.inl hy)
        · rcases List.mem_cons.mp hod' with rfl | hod''
          · exact Or.inl (Or.inr rest)
          · exact Or.inr ⟨od', hod'', rest⟩

/-! ## Claim theorems -/

/-- C1: `into_rs_code_file` is a total function on target kinds: a `Lib`
target kind maps to `LibRoot(path)`, `Bin` to `BinRoot(path)`,
`CustomBuild` to `CustomBuildRoot(path)`, and every other target kind
(`Test`, `Bench`, `ExampleLib`, `ExampleBin`) maps to `Other(path)`.
The equations below cover every constructor of `TargetKind`, and since
`into_rs_code_file` is a function, no target kind maps to more than one
role tag. -/
theorem c1_into_rs_code_file_total (path : String) (kinds : List String) :
    into_rs_code_file (.Lib kinds) path = .LibRoot path ∧
    into_rs_code_file .Bin path = .BinRoot path ∧
    into_rs_code_file .CustomBuild path = .CustomBuildRoot path ∧
    into_rs_code_file .Test path = .Other path ∧
    into_rs_code_file .Bench path = .Other path ∧
    into_rs_code_file (.ExampleLib kinds) path = .Other path ∧
    into_rs_code_file .ExampleBin path = .Other path :=
  ⟨rfl, rfl, rfl, rfl, rfl, rfl, rfl⟩

/-- C2 counterexample: the claim says a package whose metrics are present
but cover zero files is never rendered with the lock symbol.  On the
code, `iter().all(...)` over an empty `rs_path_to_metrics` map is
vacuously true, so such a package is rendered with the lock symbol. -/
theorem c2_counterexample :
    handle_package_text_tree_line (some ⟨[]⟩) "pkg" "" =
      OutLine.package .Lock "" ⟨"pkg", .green, false⟩ ∧
    handle_package_text_tree_line (some ⟨[]⟩) "pkg" "" ≠
      OutLine.package .QuestionMark "" ⟨"pkg", .red, false⟩ :=
  ⟨rfl, by decide⟩

/-- C2 (amended): a package with no metrics entry at all is rendered
with the question-mark symbol (never the lock, and the forbid table
never emits the radiation warning symbol for any package); but a package
whose metrics entry covers zero files is rendered with the lock symbol,
because the `all` quantifier over an empty file map is vacuously
true. -/
theorem c2_empty_metrics_rendering (name tree_vines : String) :
    handle_package_text_tree_line none name tree_vines =
      .package .QuestionMark tree_vines ⟨name, .red, false⟩ ∧
    handle_package_text_tree_line (some ⟨[]⟩) name tree_vines =
      .package .Lock tree_vines ⟨name, .green, false⟩ ∧
    (∀ (pm : Option PackageMetrics) (v : String) (cs : ColoredString),
      handle_package_text_tree_line pm name tree_vines ≠ .package .Rads v cs) := by
  refine ⟨rfl, rfl, fun pm v cs => ?_⟩
  unfold handle_package_text_tree_line
  split <;> simp

/-- C3: dep-info parsing round-trips backslash-escaped spaces.  For a
line `target: deps` whose dependency section contains a filename with an
embedded space written as a token ending in a backslash followed by the
next whitespace-delimited token, `parse_rustc_dep_info` returns that
filename as a single dependency token equal to the original filename
with the space restored. -/
theorem c3_backslash_space_round_trip (t s1 s2 : List Char)
    (ht : hasColonSpace t = false)
    (hs1 : ∀ c ∈ s1, c.isWhitespace = false)
    (hs2ne : s2 ≠ []) (hs2 : ∀ c ∈ s2, c.isWhitespace = false)
    (hs2b : s2.getLast? ≠ some '\\') :
    parse_rustc_dep_info [t ++ ':' :: ' ' :: (s1 ++ '\\' :: ' ' :: s2)] =
      some [(t, [s1 ++ ' ' :: s2])] := by
  have hsplit := splitAtColonSpace_append t ht (s1 ++ '\\' :: ' ' :: s2)
  have hw1 : ∀ c ∈ s1 ++ ['\\'], c.isWhitespace = false := by
    intro c hcmem
    rcases List.mem_append.mp hcmem with h | h
    · exact hs1 c h
    · rcases List.mem_singleton.mp h with rfl
      decide
  have hpair : splitWhitespace (s1 ++ '\\' :: ' ' :: s2) = [s1 ++ ['\\'], s2] := by
    rw [show s1 ++ '\\' :: ' ' :: s2 = (s1 ++ ['\\']) ++ ' ' :: s2 by
      simp [List.append_assoc]]
    exact splitWhitespace_pair _ _ (by simp) hw1 hs2ne hs2
  have hline : parseDepLine (t, s1 ++ '\\' :: ' ' :: s2) = some (t, [s1 ++ ' ' :: s2]) := by
    unfold parseDepLine
    show (processDeps (splitWhitespace (s1 ++ '\\' :: ' ' :: s2))).map _ = _
    rw [hpair, processDeps_merge s1 s2 hs2ne hs2b]
    rfl
  unfold parse_rustc_dep_info
  rw [show [t ++ ':' :: ' ' :: (s1 ++ '\\' :: ' ' :: s2)].filterMap splitAtColonSpace
      = [(t, s1 ++ '\\' :: ' ' :: s2)] by simp [List.filterMap_cons, hsplit]]
  simp [List.mapM_cons, List.mapM_nil, List.mapM.loop, hline]

/-- C3 witness: the line `out.o: src/a\ b.rs` parses to the single
dependency `src/a b.rs`. -/
theorem c3_witness :
    parse_rustc_dep_info
        ["out.o".toList ++ ':' :: ' ' :: ("src/a".toList ++ '\\' :: ' ' :: "b.rs".toList)] =
      some [("out.o".toList, ["src/a".toList ++ ' ' :: "b.rs".toList])] :=
  c3_backslash_space_round_trip _ _ _ (by decide) (by decide) (by decide) (by decide)
    (by decide)

/-- C4: the claim says a dep-info file whose contents do not match the
expected syntax — including a token ending in a trailing backslash with
no following token — makes the resolver return a `DepParse` error
carrying the file's path.  On the code, that input hits
`deps.next().expect("malformed dep-info format, trailing \\")` and
panics (modelled as `none`): the whole resolution evaluates to the
panic, not to any returned error value.  (A `DepParse` error carrying
the file path is produced only for a failing read of the file, last
conjunct.) -/
theorem c4_trailing_backslash_panics :
    parseRustcDepInfoStr ["out.o: foo\\"] = none ∧
    resolve_rs_file_deps ⟨fun _ => ["lib.d"], fun _ => .ok ["out.o: foo\\"], fun x => some x, fun _ d => d⟩
      "w" none none 1 none ⟨[], ["out"]⟩ = none ∧
    resolve_rs_file_deps ⟨fun _ => ["lib.d"], fun _ => .error "read failed", fun x => some x, fun _ d => d⟩
      "w" none none 1 none ⟨[], ["out"]⟩ = some (.error (.DepParse "read failed" "lib.d")) :=
  ⟨rfl, rfl, rfl⟩

/-- C5: on success, `resolve_rs_file_deps` returns exactly the set union
of (a) every dependency token of every parsed dep-info file, joined
against the workspace root and canonicalized, and (b) every source-root
file captured by the interceptor; the result has no duplicate entries,
so repeated targets or repeated dependencies contribute each path at
most once. -/
theorem c5_resolve_returns_union (env : ResolveEnv) (root : String)
    (ctx : CustomExecutorInnerContext)
    (hok : ∀ od ∈ ctx.out_dir_args, ∀ f ∈ env.dFilesOf od, depFileOk env f = true)
    (hc : ∀ od ∈ ctx.out_dir_args, ∀ f ∈ env.dFilesOf od, ∀ d ∈ fileTokens env f,
      (env.canon (env.join root d)).isSome = true) :
    ∃ s, resolve_rs_file_deps env root none none 1 none ctx = some (.ok s) ∧
      s.Nodup ∧
      ∀ y, (y ∈ s ↔
        (∃ od ∈ ctx.out_dir_args, ∃ f ∈ env.dFilesOf od, ∃ d ∈ fileTokens env f,
          env.canon (env.join root d) = some y) ∨ y ∈ ctx.rs_file_args) := by
  obtain ⟨s0, hs0, hmem0, hnd0⟩ := addAllOutDirs_ok env root ctx.out_dir_args [] hok hc
  refine ⟨insertAll s0 ctx.rs_file_args, ?_, ?_, ?_⟩
  · have hred : resolve_rs_file_deps env root none none 1 none ctx =
        (match addAllOutDirs env root ctx.out_dir_args [] with
          | none => none
          | some (.error e) => some (.error e)
          | some (.ok s) => some (.ok (insertAll s ctx.rs_file_args))) := rfl
    rw [hred, hs0]
  · exact nodup_insertAll _ _ (hnd0 List.nodup_nil)
  · intro y
    rw [mem_insertAll, hmem0 y]
    constructor
    · rintro ((h | h) | h)
      · exact absurd h (List.not_mem_nil y)
      · exact Or.inl h
      · exact Or.inr h
    · rintro (h | h)
      · exact Or.inl (Or.inr h)
      · exact Or.inr h

/-- C5 witness: a dep-info file with a duplicate target line
(`out.o: src/a.rs src/b.rs` and `out.o: src/a.rs`) together with one
captured source root resolves to a duplicate-free union. -/
theorem c5_witness :
    ∃ s,
      resolve_rs_file_deps
          ⟨fun _ => ["lib.d"],
            fun _ => .ok ["out.o: src/a.rs src/b.rs", "out.o: src/a.rs"],
            fun x => some x, fun _ d => d⟩
          "w" none none 1 none ⟨["root.rs"], ["out"]⟩ = some (.ok s) ∧
      s.Nodup ∧
      ∀ y, (y ∈ s ↔
        (∃ od ∈ (⟨["root.rs"], ["out"]⟩ : CustomExecutorInnerContext).out_dir_args,
          ∃ f ∈ (⟨fun _ => ["lib.d"],
            fun _ => .ok ["out.o: src/a.rs src/b.rs", "out.o: src/a.rs"],
            fun x => some x, fun _ d => d⟩ : ResolveEnv).dFilesOf od,
          ∃ d ∈ fileTokens ⟨fun _ => ["lib.d"],
            fun _ => .ok ["out.o: src/a.rs src/b.rs", "out.o: src/a.rs"],
            fun x => some x, fun _ d => d⟩ f,
            (some d : Option String) = some y) ∨
        y ∈ (⟨["root.rs"], ["out"]⟩ : CustomExecutorInnerContext).rs_file_args) :=
  c5_resolve_returns_union _ "w" _ (by decide) (by decide)

/-- C6: when the build records zero compiler invocations (no output
directories and no source-root files in the interceptor context),
`resolve_rs_file_deps` returns `Ok` with the empty set. -/
theorem c6_empty_build_resolves_empty (env : ResolveEnv) (root : String) :
    resolve_rs_file_deps env root none none 1 none ⟨[], []⟩ = some (.ok []) :=
  rfl

/-- C7: draining the shared interceptor context after the build is
guarded: with more than one live reference (strong count ≠ 1),
`Arc::try_unwrap` fails and the distinct error `ArcUnwrap` is returned;
with a poisoned mutex, the distinct error `InnerContextMutex` (carrying
the poison error's text) is returned; in both cases no file set is
produced. -/
theorem c7_context_drain_errors (env : ResolveEnv) (root : String)
    (ctx : CustomExecutorInnerContext) (n : Nat) (m : String) (hn : n ≠ 1) :
    resolve_rs_file_deps env root none none n none ctx = some (.error .ArcUnwrap) ∧
    resolve_rs_file_deps env root none none 1 (some m) ctx = some (.error (.InnerContextMutex m)) ∧
    (∀ s, resolve_rs_file_deps env root none none n none ctx ≠ some (.ok s)) ∧
    (∀ s, resolve_rs_file_deps env root none none 1 (some m) ctx ≠ some (.ok s)) := by
  have h1 : resolve_rs_file_deps env root none none n none ctx = some (.error .ArcUnwrap) := by
    simp [resolve_rs_file_deps, hn]
  refine ⟨h1, rfl, fun s => ?_, fun s => ?_⟩
  · rw [h1]; simp
  · simp [resolve_rs_file_deps]

/-- C7 witness: the drain-time errors at a concrete environment with two
live references, and with a poisoned mutex. -/
theorem c7_witness :
    (2 ≠ 1) ∧
    (resolve_rs_file_deps ⟨fun _ => [], fun _ => .ok [], fun x => some x, fun _ d => d⟩
        "w" none none 2 none ⟨[], []⟩ = some (.error .ArcUnwrap) ∧
      resolve_rs_file_deps ⟨fun _ => [], fun _ => .ok [], fun x => some x, fun _ d => d⟩
        "w" none none 1 (some "poisoned") ⟨[], []⟩ =
          some (.error (.InnerContextMutex "poisoned")) ∧
      (∀ s, resolve_rs_file_deps ⟨fun _ => [], fun _ => .ok [], fun x => some x, fun _ d => d⟩
        "w" none none 2 none ⟨[], []⟩ ≠ some (.ok s)) ∧
      (∀ s, resolve_rs_file_deps ⟨fun _ => [], fun _ => .ok [], fun x => some x, fun _ d => d⟩
        "w" none none 1 (some "poisoned") ⟨[], []⟩ ≠ some (.ok s))) :=
  ⟨by decide, c7_context_drain_errors _ "w" ⟨[], []⟩ 2 "poisoned" (by decide)⟩

/-- C8: the safety symbol and color are a function of the verdict:
`NoneDetectedForbidsUnsafe` yields the lock symbol and a green,
non-bold rendering; `UnsafeDetected` yields the warning symbol and a
bold red rendering; `NoneDetectedAllowsUnsafe` yields the neutral
symbol and the plain rendering with no color. -/
theorem c8_verdict_symbol_and_color (s : String) :
    colorize s .NoneDetectedForbidsUnsafe = ⟨s, .green, false⟩ ∧
    verdictSymbol .NoneDetectedForbidsUnsafe = .Lock ∧
    colorize s .UnsafeDetected = ⟨s, .red, true⟩ ∧
    verdictSymbol .UnsafeDetected = .Rads ∧
    colorize s .NoneDetectedAllowsUnsafe = ⟨s, .normal, false⟩ ∧
    verdictSymbol .NoneDetectedAllowsUnsafe = .QuestionMark :=
  ⟨rfl, rfl, rfl, rfl, rfl, rfl⟩

/-- C9 counterexample: the claim says an `ExtraDepsGroup` line with no
recognized label contributes no output line *and no lines for its
members*.  The table renderer receives a flat line list and renders
`Package` lines independently of any preceding group header: with an
unlabeled header followed by a member package line, the member's line
still appears in the output. -/
theorem c9_counterexample :
    get_kind_group_name .Normal = none ∧
    scan_forbid_to_table (fun _ => none) (fun _ => "b")
        [.ExtraDepsGroup .Normal "v", .Package 0 "w"] =
      [.package .QuestionMark "w" ⟨"b", .red, false⟩] :=
  ⟨rfl, rfl⟩

/-- C9 (amended): an `ExtraDepsGroup` line whose kind has no recognized
label contributes no output line of its own — the renderer `continue`s
past it and the remaining lines render exactly as they would without
it.  Member package lines, which arrive as separate flat tree lines,
are rendered regardless. -/
theorem c9_unlabeled_group_header_skipped (metricsOf : Nat → Option PackageMetrics)
    (nameOf : Nat → String) (kind : DepKind) (tree_vines : String)
    (rest : List TextTreeLine) (h : get_kind_group_name kind = none) :
    scan_forbid_to_table metricsOf nameOf (.ExtraDepsGroup kind tree_vines :: rest) =
      scan_forbid_to_table metricsOf nameOf rest := by
  simp [scan_forbid_to_table, List.filterMap_cons, h]

/-- C9 witness: skipping a normal-kind group header at a concrete
input. -/
theorem c9_witness :
    get_kind_group_name .Normal = none ∧
    scan_forbid_to_table (fun _ => none) (fun _ => "b")
        [.ExtraDepsGroup .Normal "v", .Package 0 "w"] =
      scan_forbid_to_table (fun _ => none) (fun _ => "b") [.Package 0 "w"] :=
  ⟨rfl, c9_unlabeled_group_header_skipped _ _ _ _ _ rfl⟩

/-- C10: `parse_rustc_dep_info` silently ignores every line that does
not contain the two-character separator `": "`: such a line contributes
no target, no dependency tokens and no error — the parse result is the
same as if the line were absent. -/
theorem c10_lines_without_separator_ignored (pre post : List (List Char))
    (l : List Char) (h : hasColonSpace l = false) :
    parse_rustc_dep_info (pre ++ l :: post) = parse_rustc_dep_info (pre ++ post) := by
  have hnone : splitAtColonSpace l = none := (splitAtColonSpace_eq_none l).mpr h
  unfold parse_rustc_dep_info
  simp [List.filterMap_append, List.filterMap_cons, hnone]

/-- C10 witness: a line with no `": "` separator between a valid line
and nothing else changes nothing. -/
theorem c10_witness :
    hasColonSpace "no separator line".toList = false ∧
    parse_rustc_dep_info ([] ++ "no separator line".toList :: ["a: b".toList]) =
      parse_rustc_dep_info ([] ++ ["a: b".toList]) :=
  ⟨by decide, c10_lines_without_separator_ignored [] ["a: b".toList] _ (by decide)⟩

end CargoGeiger
